import Mathlib

/-!
Verification of the metric-derivation core of mysqlbeat (beater/mysqlbeat.go).

Modelling conventions:
- Go strings are modelled as rune sequences (List Char wrapped in String); all data in the
  claims is ASCII, where Go byte-wise operations and rune-wise operations coincide.
- Go float64 values are modelled as exact rationals. Every numeric value appearing in the
  claims is exactly representable in float64 and every arithmetic step on them is exact, so
  the rational model coincides with float64 there. Literals denoting non-finite values
  (the inf and nan forms accepted by Go ParseFloat) have no rational payload; the model
  keeps the parse success and uses payload 0 for them. Out-of-range literals (absolute
  value rounding to infinity, a Go ErrRange) fail to parse, as in Go. The float64
  rounding of in-range literals to the nearest representable value is abstracted away
  (the model keeps the exact rational value), as is Go's 19-digit mantissa truncation.
- time.Time values are modelled as rational numbers of seconds; Duration.Seconds is exact
  subtraction of the two instants.
- int64 is modelled as Int; the parsers enforce the 64-bit range exactly as strconv does.
  Arithmetic overflow of the int64 delta subtraction is not modelled (no claim involves it).
- common.MapStr (a Go map) is modelled as an association list with insert-or-overwrite
  assignment; the length of the list is the Go map length len(). Go iteration order of a
  map is not relied upon by the code under study.
- sql.Rows iteration and row.Scan are external I/O; a result set is modelled as the list of
  its rows, each row being the list of raw cell strings, paired with the column-name list.
  Scan errors are driver failures outside the modelled core.
-/

namespace Mysqlbeat

/-- Decidable equality for Except results (not provided by core). -/
instance instDecEqExcept {ε α : Type} [DecidableEq ε] [DecidableEq α] :
    DecidableEq (Except ε α) := fun a b =>
  match a, b with
  | .ok x, .ok y =>
    if h : x = y then isTrue (h ▸ rfl) else isFalse (fun hc => h (Except.ok.inj hc))
  | .error x, .error y =>
    if h : x = y then isTrue (h ▸ rfl) else isFalse (fun hc => h (Except.error.inj hc))
  | .ok _, .error _ => isFalse (fun hc => Except.noConfusion hc)
  | .error _, .ok _ => isFalse (fun hc => Except.noConfusion hc)

/-- Go strings.HasSuffix(s, suf). -/
def hasSuffix (s suf : String) : Bool := suf.data.isSuffixOf s.data

/-- Index of the first occurrence of old in s, as in Go strings.Index (simple spec form). -/
def firstOcc (old : List Char) : List Char → Option Nat
  | [] => if old.isPrefixOf ([] : List Char) then some 0 else none
  | c :: t =>
    if old.isPrefixOf (c :: t) then some 0 else (firstOcc old t).map (· + 1)

/-- Go strings.Replace(s, old, new, 1): replace the first occurrence of old, if any.
With an empty old, Go inserts new before s; firstOcc returns 0 there, matching Go. -/
def replaceFirst (s old new : String) : String :=
  match firstOcc old.data s.data with
  | none => s
  | some i => ⟨s.data.take i ++ new.data ++ s.data.drop (i + old.length)⟩

/-- Go strconv lower(c): c | ('x' - 'X'), i.e. c | 0x20. -/
def lowerC (c : Char) : Char := Char.ofNat (c.toNat ||| 0x20)

/-- Digit value of a character, as in the digit cases of Go strconv.ParseUint:
decimal digits, then letters via lower(c); everything else is a syntax error. -/
def digitVal (c : Char) : Option Nat :=
  if '0' ≤ c ∧ c ≤ '9' then some (c.toNat - '0'.toNat)
  else if 'a' ≤ lowerC c ∧ lowerC c ≤ 'z' then some ((lowerC c).toNat - 'a'.toNat + 10)
  else none

/-- The scanning loop of Go strconv underscoreOK: saw is the class of the previous
character, one of the markers used by the Go code
(caret = beginning, zero = digit or base prefix, underscore, bang = other). -/
def underscoreOKLoop (hex : Bool) : List Char → Char → Bool
  | [], saw => saw ≠ '_'
  | c :: rest, saw =>
    if ('0' ≤ c ∧ c ≤ '9') ∨ (hex ∧ 'a' ≤ lowerC c ∧ lowerC c ≤ 'f') then
      underscoreOKLoop hex rest '0'
    else if c = '_' then
      (if saw = '0' then underscoreOKLoop hex rest '_' else false)
    else if saw = '_' then false
    else underscoreOKLoop hex rest '!'

/-- Go strconv underscoreOK(s): underscores must appear only between digits, or between
a base prefix and a digit. -/
def underscoreOK (cs : List Char) : Bool :=
  let cs1 := match cs with
    | c :: t => if c = '-' ∨ c = '+' then t else c :: t
    | [] => []
  match cs1 with
  | c0 :: c1 :: rest =>
    if c0 = '0' ∧ (lowerC c1 = 'b' ∨ lowerC c1 = 'o' ∨ lowerC c1 = 'x') then
      underscoreOKLoop (lowerC c1 = 'x') rest '0'
    else underscoreOKLoop false (c0 :: c1 :: rest) '^'
  | short => underscoreOKLoop false short '^'

/-- The digit-accumulation loop of Go strconv.ParseUint in base-0 mode: underscores are
skipped here (validated separately by underscoreOK), a digit at least as large as the
base is a syntax error. The accumulated value is kept exact; the 64-bit range check is
done by the caller (Go caps at maxUint64 with ErrRange, which the caller also rejects). -/
def goParseUint0Digits (base : Nat) : List Char → Nat → Option Nat
  | [], n => some n
  | c :: rest, n =>
    if c = '_' then goParseUint0Digits base rest n
    else match digitVal c with
      | some d => if d ≥ base then none else goParseUint0Digits base rest (n * base + d)
      | none => none

/-- Go strconv.ParseUint(s, 0, 64) on the sign-stripped part, syntax and base-prefix
handling only (the int64 range check lives in goParseInt). Base 0 resolves the base from
the prefix: 0b/0B binary, 0o/0O octal, 0x/0X hex when at least one character follows the
prefix, a leading 0 otherwise meaning legacy octal, default decimal. -/
def goParseUint0 (cs : List Char) : Option Nat :=
  if cs = [] then none
  else
    let p : Nat × List Char := match cs with
      | '0' :: c2 :: rest =>
        if lowerC c2 = 'b' ∧ rest ≠ [] then (2, rest)
        else if lowerC c2 = 'o' ∧ rest ≠ [] then (8, rest)
        else if lowerC c2 = 'x' ∧ rest ≠ [] then (16, rest)
        else (8, c2 :: rest)
      | '0' :: [] => (8, ([] : List Char))
      | _ => (10, cs)
    if cs.contains '_' ∧ ¬ underscoreOK cs then none
    else goParseUint0Digits p.1 p.2 0

/-- Go strconv.ParseInt(strColValue, 0, 64), as called at mysqlbeat.go:299 and :439:
optional sign, base-0 unsigned parse of the remainder, int64 range check. Returns none
exactly when Go returns a non-nil error (syntax or range). -/
def goParseInt (s : String) : Option Int :=
  match s.data with
  | [] => none
  | c :: rest =>
    let p : Bool × List Char :=
      if c = '+' then (false, rest)
      else if c = '-' then (true, rest)
      else (false, c :: rest)
    match goParseUint0 p.2 with
    | none => none
    | some u =>
      if p.1 then (if u ≤ 2 ^ 63 then some (-(u : Int)) else none)
      else (if u < 2 ^ 63 then some (u : Int) else none)

/-- Non-finite special forms accepted by Go strconv special(): inf and infinity with an
optional sign, nan without one, all case-insensitively, consuming the whole string. -/
def isSpecialFloat (cs : List Char) : Bool :=
  let l := cs.map lowerC
  let core := fun (t : List Char) => t == "inf".data || t == "infinity".data
  core l || l == "nan".data ||
    (match l with
     | c :: t => (c == '+' || c == '-') && core t
     | [] => false)

/-- The mantissa loop of Go strconv readFloat: digits with at most one dot, underscores
skipped here (validated afterwards). Returns the accumulated digit value, the count of
digits after the dot, whether any digit was seen, and the unconsumed rest. -/
def mantLoop (hex : Bool) : List Char → Nat → Nat → Bool → Bool → Nat × Nat × Bool × List Char
  | [], v, fc, _, sd => (v, fc, sd, [])
  | c :: rest, v, fc, sawdot, sd =>
    if c = '_' then mantLoop hex rest v fc sawdot sd
    else if c = '.' then
      (if sawdot then (v, fc, sd, c :: rest) else mantLoop hex rest v fc true sd)
    else if '0' ≤ c ∧ c ≤ '9' then
      mantLoop hex rest (v * (if hex then 16 else 10) + (c.toNat - '0'.toNat))
        (if sawdot then fc + 1 else fc) sawdot true
    else if hex ∧ 'a' ≤ lowerC c ∧ lowerC c ≤ 'f' then
      mantLoop hex rest (v * 16 + ((lowerC c).toNat - 'a'.toNat + 10))
        (if sawdot then fc + 1 else fc) sawdot true
    else (v, fc, sd, c :: rest)

/-- The exponent digit loop of Go strconv readFloat (digits and underscores). -/
def expLoop : List Char → Nat → Nat × List Char
  | [], e => (e, [])
  | c :: rest, e =>
    if c = '_' then expLoop rest e
    else if '0' ≤ c ∧ c ≤ '9' then expLoop rest (e * 10 + (c.toNat - '0'.toNat))
    else (e, c :: rest)

/-- Smallest magnitude that float64 round-to-nearest-even sends to infinity; Go ParseFloat
reports ErrRange at or above it. -/
def float64OverflowBound : ℚ := 2 ^ 1024 - 2 ^ 970

/-- The syntax phase of Go strconv.ParseFloat(s, 64) (readFloat plus special()): optional
sign, special inf/nan forms, decimal or hex-with-mandatory-exponent mantissa, underscore
validation, trailing garbage rejected. On success returns
(negative, hex, mantissa digit value, digits after the dot, signed exponent); the special
forms are reported as a zero mantissa (see the header: no rational payload exists for
them). The numeric value assembly and the range check live in goParseFloat. -/
def goParseFloatSyn (s : String) : Option (Bool × Bool × Nat × Nat × Int) :=
  let cs := s.data
  if cs = [] then none
  else if isSpecialFloat cs then some (false, false, 0, 0, 0)
  else
    let sg : Bool × List Char := match cs with
      | '+' :: t => (false, t)
      | '-' :: t => (true, t)
      | t => (false, t)
    let hx : Bool × List Char := match sg.2 with
      | '0' :: x :: rest =>
        if lowerC x = 'x' ∧ rest ≠ [] then (true, rest) else (false, sg.2)
      | _ => (false, sg.2)
    let m := mantLoop hx.1 hx.2 0 0 false false
    if ¬ m.2.2.1 then none
    else if cs.contains '_' ∧ ¬ underscoreOK cs then none
    else
      let fin : Int → Option (Bool × Bool × Nat × Nat × Int) := fun e =>
        some (sg.1, hx.1, m.1, m.2.1, e)
      match m.2.2.2 with
      | [] => if hx.1 then none else fin 0
      | c :: t =>
        if lowerC c = (if hx.1 then 'p' else 'e') then
          let es : Int × List Char := match t with
            | '+' :: u => ((1 : Int), u)
            | '-' :: u => (-1, u)
            | u => (1, u)
          match es.2 with
          | d :: _ =>
            if '0' ≤ d ∧ d ≤ '9' then
              let ex := expLoop es.2 0
              if ex.2 = [] then fin (es.1 * ex.1) else none
            else none
          | [] => none
        else none

/-- The exact rational value denoted by a parsed float literal:
mantissa / mantissaBase ^ fracDigits * exponentBase ^ exponent, negated under the sign.
The mantissa base is 16 for hex literals (each hex digit is 4 bits of the dot position,
as in readFloat dp *= 4) and the exponent base is 2 for hex (p exponent), 10 otherwise. -/
def floatVal (r : Bool × Bool × Nat × Nat × Int) : ℚ :=
  let q0 : ℚ := (r.2.2.1 : ℚ) / (if r.2.1 then (16 : ℚ) else 10) ^ r.2.2.2.1
  let q1 : ℚ := q0 * (if r.2.1 then (2 : ℚ) else 10) ^ r.2.2.2.2
  if r.1 then -q1 else q1

/-- Go strconv.ParseFloat(strColValue, 64) as called at mysqlbeat.go:305 and :445, over
exact rationals (see the header for the float64 conventions). Returns none exactly when
Go returns a non-nil error (syntax, or overflow to infinity), except that an underflowing
literal keeps its exact tiny value (Go rounds it to zero with a nil error). -/
def goParseFloat (s : String) : Option ℚ :=
  match goParseFloatSyn s with
  | none => none
  | some r =>
    if float64OverflowBound ≤ |floatVal r| then none else some (floatVal r)

/-- A Go interface value as stored in oldValues, oldValuesAge and events: the code puts
int64, float64, string and time.Time values into these maps. -/
inductive GoVal where
  | vInt (n : Int)
  | vFloat (q : ℚ)
  | vStr (s : String)
  | vTime (t : ℚ)
deriving DecidableEq, Repr

/-- common.MapStr, modelled as an association list with insert-or-overwrite assignment. -/
abbrev Store := List (String × GoVal)

/-- Go map read m[k] (nil interface when absent). -/
def mget (m : Store) (k : String) : Option GoVal :=
  match m.find? (fun p => p.1 == k) with
  | some p => some p.2
  | none => none

/-- Go map assignment m[k] = v: overwrite the existing entry or append a new one. -/
def mset (m : Store) (k : String) (v : GoVal) : Store :=
  if m.any (fun p => p.1 == k) then m.map (fun p => if p.1 == k then (k, v) else p)
  else m ++ [(k, v)]

/-- Go len(m) for the association-list map model. -/
def mlen (m : Store) : Nat := m.length

/-- The key set of a map, as a list. -/
def mkeys (m : Store) : List String := m.map Prod.fst

/-- The two cross-cycle state maps of the Mysqlbeat struct (fields oldValues and
oldValuesAge). -/
structure Cache where
  oldValues : Store
  oldValuesAge : Store
deriving DecidableEq, Repr

/-- The state set up in New (mysqlbeat.go:83-84): both maps start with the sentinel
entry mysqlbeat = init (a string, note: not a time, in both maps). -/
def initCache : Cache := ⟨[("mysqlbeat", .vStr "init")], [("mysqlbeat", .vStr "init")]⟩

/-- The two wildcard settings of the Mysqlbeat struct. -/
structure BT where
  deltaWildcard : String
  deltaKeyWildcard : String
deriving DecidableEq, Repr

/-- The defaults from config.go DefaultConfig. -/
def btDefault : BT := ⟨"__DELTA", "__DELTAKEY"⟩

/-- The four query type values (mysqlbeat.go:56-59). -/
inductive QueryType where
  | singleRow
  | multipleRows
  | twoColumns
  | slaveDelay
deriving DecidableEq, Repr

/-- The configuration string of each query type. -/
def QueryType.str : QueryType → String
  | .singleRow => "single-row"
  | .multipleRows => "multiple-rows"
  | .twoColumns => "two-columns"
  | .slaveDelay => "show-slave-delay"

/-- mysqlbeat.go:62. -/
def columnNameSlaveDelay : String := "Seconds_Behind_Master"

/-- Column type constants (mysqlbeat.go:65-67, an iota block). -/
def columnTypeString : Nat := 0

/-- Column type constant for int64 cells. -/
def columnTypeInt : Nat := 1

/-- Column type constant for float64 cells. -/
def columnTypeFloat : Nat := 2

/-- The integer part of Go math.Modf: truncation toward zero. -/
def ratTrunc (q : ℚ) : Int := if q < 0 then ⌈q⌉ else ⌊q⌋

/-- mysqlbeat.go roundF2I (lines 576-588): div is the fractional part from math.Modf,
which carries the sign of the input; ceiling when div is at least roundOn, floor
otherwise. -/
def roundF2I (val roundOn : ℚ) : Int :=
  let div := val - (ratTrunc val : ℚ)
  if div ≥ roundOn then ⌈val⌉ else ⌊val⌋

/-- The sequential type-flag assignment of mysqlbeat.go:438-451 (identical at :298-311):
start at string, switch to int when ParseInt succeeds, then switch to float when
ParseFloat succeeds and the type is still string. -/
def classifyTy (s : String) : Nat :=
  let t1 := if (goParseInt s).isSome then columnTypeInt else columnTypeString
  if (goParseFloat s).isSome then (if t1 = columnTypeString then columnTypeFloat else t1)
  else t1

/-- The typed value the code stores or emits for a raw cell, combining the type flag with
the corresponding parsed value (the parsed values are only read under the matching flag). -/
def classify (s : String) : GoVal :=
  if classifyTy s = columnTypeInt then .vInt ((goParseInt s).getD 0)
  else if classifyTy s = columnTypeFloat then .vFloat ((goParseFloat s).getD 0)
  else .vStr s

/-- The accumulation loop of getKeyFromRow (mysqlbeat.go:560-566), pairing each column
name with the raw cell value of the row. -/
def getKeyFromRowLoop (bt : BT) : List (String × String) → String → Bool → String × Bool
  | [], strKey, keyFound => (strKey, keyFound)
  | p :: rest, strKey, keyFound =>
    if hasSuffix p.1 bt.deltaKeyWildcard then getKeyFromRowLoop bt rest (strKey ++ p.2) true
    else getKeyFromRowLoop bt rest strKey keyFound

/-- The error text of getKeyFromRow (mysqlbeat.go:569). -/
def keyErrMsg : String := "query type multiple-rows requires at least one delta key column"

/-- mysqlbeat.go getKeyFromRow (lines 554-573): concatenate, in column order, the raw
values of the columns whose name ends with the delta key wildcard; error when none
exists. -/
def getKeyFromRow (bt : BT) (values columns : List String) : Except String String :=
  let r := getKeyFromRowLoop bt (columns.zip values) "" false
  if r.2 then .ok r.1 else .error keyErrMsg

/-- The delta-column cache-and-rate logic shared by generateEventFromRow (lines 472-534)
and appendRowToEvent (lines 315-377); the two code blocks are textually the same logic,
appendRowToEvent instantiating strKey with the column name. Arguments n and f are the
int64 and float64 parse results (only read under the matching type flag, with the Go
zero value as default). The inner matches on mget are the Go type assertions with
discarded ok flag, yielding the zero value on mismatch; the outer match on the age is
the checked time.Time assertion guarding the whole block. -/
def deltaBranch (strKey strEventColName strColValue : String) (ty : Nat) (n : Int) (f : ℚ)
    (rowAge : ℚ) (event : Store) (st : Cache) : Store × Cache :=
  match mget st.oldValues strKey with
  | none =>
    let age1 := mset st.oldValuesAge strKey (.vTime rowAge)
    let vals1 :=
      if ty = columnTypeString then mset st.oldValues strKey (.vStr strColValue)
      else if ty = columnTypeInt then mset st.oldValues strKey (.vInt n)
      else if ty = columnTypeFloat then mset st.oldValues strKey (.vFloat f)
      else st.oldValues
    (event, ⟨vals1, age1⟩)
  | some _ =>
    match mget st.oldValuesAge strKey with
    | some (.vTime dtOldAge) =>
      let delta := rowAge - dtOldAge
      if ty = columnTypeInt then
        let oldVal : Int :=
          match mget st.oldValues strKey with
          | some (.vInt v) => v
          | _ => 0
        let calcVal : Int :=
          if oldVal < n then roundF2I (((n - oldVal : Int) : ℚ) / delta) (1 / 2) else 0
        (mset event strEventColName (.vInt calcVal),
         ⟨mset st.oldValues strKey (.vInt n), mset st.oldValuesAge strKey (.vTime rowAge)⟩)
      else if ty = columnTypeFloat then
        let oldVal : ℚ :=
          match mget st.oldValues strKey with
          | some (.vFloat v) => v
          | _ => 0
        let calcVal : ℚ := if oldVal < f then (f - oldVal) / delta else 0
        (mset event strEventColName (.vFloat calcVal),
         ⟨mset st.oldValues strKey (.vFloat f), mset st.oldValuesAge strKey (.vTime rowAge)⟩)
      else (mset event strEventColName (.vStr strColValue), st)
    | _ => (event, st)

/-- The event column renaming of mysqlbeat.go:431-436: strip the delta key wildcard, or
turn the delta wildcard into _PERSECOND (first occurrence, per Go strings.Replace with
count 1), or keep the name. -/
def renameColumn (bt : BT) (strColName : String) : String :=
  if hasSuffix strColName bt.deltaKeyWildcard then
    replaceFirst strColName bt.deltaKeyWildcard ""
  else if hasSuffix strColName bt.deltaWildcard then
    replaceFirst strColName bt.deltaWildcard "_PERSECOND"
  else strColName

/-- The per-column loop body of generateEventFromRow (mysqlbeat.go:417-543): slave-delay
filtering, event column renaming, cell classification, then the delta branch (with the
key derived per query type) or the plain emission. -/
def processColumn (bt : BT) (queryType : QueryType) (values columns : List String)
    (rowAge : ℚ) (acc : Store × Cache) (strColName strColValue : String) :
    Except String (Store × Cache) :=
  let event := acc.1
  let st := acc.2
  if queryType = .slaveDelay ∧ strColName ≠ columnNameSlaveDelay then .ok (event, st)
  else
    let strEventColName := renameColumn bt strColName
    let ty := classifyTy strColValue
    let n : Int := (goParseInt strColValue).getD 0
    let f : ℚ := (goParseFloat strColValue).getD 0
    if (queryType = .singleRow ∨ queryType = .multipleRows) ∧
        hasSuffix strColName bt.deltaWildcard then
      match
        (if queryType = .singleRow then Except.ok strColName
         else (getKeyFromRow bt values columns).map (fun k => k ++ strColName)) with
      | .error e => .error e
      | .ok strKey => .ok (deltaBranch strKey strEventColName strColValue ty n f rowAge event st)
    else
      .ok
        ((if ty = columnTypeString then mset event strEventColName (.vStr strColValue)
          else if ty = columnTypeInt then mset event strEventColName (.vInt n)
          else if ty = columnTypeFloat then mset event strEventColName (.vFloat f)
          else event),
         st)

/-- The event scaffolding created at mysqlbeat.go:405-408. -/
def eventInit (queryType : QueryType) (rowAge : ℚ) : Store :=
  [("@timestamp", .vTime rowAge), ("type", .vStr queryType.str)]

/-- The column loop of generateEventFromRow, threading event and cache through
processColumn; Go iterates the scanned values with columns[i] as the name. -/
def generateEventFromRowCore (bt : BT) (values columns : List String) (queryType : QueryType)
    (rowAge : ℚ) (st : Cache) : Except String (Store × Cache) :=
  (columns.zip values).foldlM
    (fun acc p => processColumn bt queryType values columns rowAge acc p.1 p.2)
    (eventInit queryType rowAge, st)

/-- mysqlbeat.go generateEventFromRow (lines 393-552): build the event, then apply the
empty-event suppression of lines 546-549 (len(event) == 2 means only the two scaffolding
fields are present, so the event is set to nil). On error Go leaves the caches untouched
(the only error source, getKeyFromRow, fires before any cache write of the row: a failing
row has no key-marked column, so no delta column of that row can reach a cache write,
every one of them failing key derivation first). -/
def generateEventFromRow (bt : BT) (values columns : List String) (queryType : QueryType)
    (rowAge : ℚ) (st : Cache) : Except String (Option Store × Cache) :=
  (generateEventFromRowCore bt values columns queryType rowAge st).map
    (fun r => (if mlen r.1 = 2 then none else some r.1, r.2))

/-- mysqlbeat.go appendRowToEvent (lines 275-390): the first cell is the metric name, the
second its raw value; delta-marked names go through the shared delta branch keyed by the
name itself, others are emitted as typed values. Go indexes values[0] and values[1]; a
two-columns row always has at least two cells (shorter rows would be a driver-level
panic, outside the model). -/
def appendRowToEvent (bt : BT) (event : Store) (st : Cache) (values : List String)
    (rowAge : ℚ) : Store × Cache :=
  let strColName := values.getD 0 ""
  let strColValue := values.getD 1 ""
  let strEventColName := replaceFirst strColName bt.deltaWildcard "_PERSECOND"
  let ty := classifyTy strColValue
  let n : Int := (goParseInt strColValue).getD 0
  let f : ℚ := (goParseFloat strColValue).getD 0
  if hasSuffix strColName bt.deltaWildcard then
    deltaBranch strColName strEventColName strColValue ty n f rowAge event st
  else
    ((if ty = columnTypeString then mset event strEventColName (.vStr strColValue)
      else if ty = columnTypeInt then mset event strEventColName (.vInt n)
      else if ty = columnTypeFloat then mset event strEventColName (.vFloat f)
      else event),
     st)

/-- The LoopRows body of process_server for query type multiple-rows (lines 226-240): on
a row error the error is logged and the loop breaks (break LoopRows), dropping the
remaining rows; on success a non-nil event gets the hostname field and is published.
Returns the published events, the logged row errors, and the final cache (unchanged by a
failing row, see generateEventFromRow). -/
def loopRowsMultiple (bt : BT) (serverName : String) (columns : List String) (dtNow : ℚ) :
    List (List String) → Cache → List Store × List String × Cache
  | [], st => ([], [], st)
  | r :: rest, st =>
    match generateEventFromRow bt r columns .multipleRows dtNow st with
    | .error e => ([], [e], st)
    | .ok (none, st1) => loopRowsMultiple bt serverName columns dtNow rest st1
    | .ok (some ev, st1) =>
      let t := loopRowsMultiple bt serverName columns dtNow rest st1
      (mset ev "hostname" (.vStr serverName) :: t.1, t.2.1, t.2.2)

/-- Modelled from the spec: the row loop C3 describes, in which a per-row failure is
logged and processing continues with the next row of the same query instead of
aborting it. Used only to compare the spec sentence against loopRowsMultiple. -/
def loopRowsMultipleSpecC3 (bt : BT) (serverName : String) (columns : List String)
    (dtNow : ℚ) : List (List String) → Cache → List Store × List String × Cache
  | [], st => ([], [], st)
  | r :: rest, st =>
    match generateEventFromRow bt r columns .multipleRows dtNow st with
    | .error e =>
      let t := loopRowsMultipleSpecC3 bt serverName columns dtNow rest st
      (t.1, e :: t.2.1, t.2.2)
    | .ok (none, st1) => loopRowsMultipleSpecC3 bt serverName columns dtNow rest st1
    | .ok (some ev, st1) =>
      let t := loopRowsMultipleSpecC3 bt serverName columns dtNow rest st1
      (mset ev "hostname" (.vStr serverName) :: t.1, t.2.1, t.2.2)

/-- The two-columns event created per query at process_server lines 200-206. -/
def twoColumnEventInit (serverName : String) (dtNow : ℚ) : Store :=
  [("@timestamp", .vTime dtNow), ("type", .vStr "two-columns"), ("hostname", .vStr serverName)]

/-- The LoopRows body of process_server for query type two-columns (lines 242-253),
accumulating all rows into the single aggregated event. -/
def loopRowsTwoColumns (bt : BT) (dtNow : ℚ) :
    List (List String) → Store → Cache → Store × Cache
  | [], ev, st => (ev, st)
  | r :: rest, ev, st =>
    let t := appendRowToEvent bt ev st r dtNow
    loopRowsTwoColumns bt dtNow rest t.1 t.2

/-- The publish decision of process_server lines 256-261: the aggregated two-columns
event is published only when it holds more than its three scaffolding fields. -/
def shouldPublishTwoColumns (ev : Store) : Bool := decide (3 < mlen ev)

/-- Follows the spec words for C4 (a base-10 signed 64-bit integer parse): optional sign,
at least one decimal digit and nothing else, value within the int64 range. Used only to
compare the claimed classification against the code. -/
def specParseIntBase10 (s : String) : Option Int :=
  match s.data with
  | [] => none
  | c :: rest =>
    let p : Bool × List Char :=
      if c = '+' then (false, rest)
      else if c = '-' then (true, rest)
      else (false, c :: rest)
    if p.2 = [] ∨ ¬ p.2.all (fun d => decide ('0' ≤ d ∧ d ≤ '9')) then none
    else
      let u := p.2.foldl (fun a d => a * 10 + (d.toNat - '0'.toNat)) 0
      if p.1 then (if u ≤ 2 ^ 63 then some (-(u : Int)) else none)
      else (if u < 2 ^ 63 then some (u : Int) else none)

/-- Follows the spec words for C4: base-10 integer parse first, else float parse, else
String. -/
def classifySpecC4 (s : String) : GoVal :=
  match specParseIntBase10 s with
  | some n => .vInt n
  | none =>
    match goParseFloat s with
    | some q => .vFloat q
    | none => .vStr s

/-- Follows the spec words for C8: the concatenation, in column order, of the raw values
of the key-suffix-marked columns of the row. Used to compare the claimed MetricKey
against getKeyFromRow. -/
def specC8KeyVals (bt : BT) : List (String × String) → String
  | [] => ""
  | p :: rest => (if hasSuffix p.1 bt.deltaKeyWildcard then p.2 else "") ++ specC8KeyVals bt rest

/-- Evaluation helper: a successfully scanned literal whose value is below the overflow
bound parses to that value. -/
theorem goParseFloat_eval (s : String) (r : Bool × Bool × Nat × Nat × Int) (q : ℚ)
    (h : goParseFloatSyn s = some r) (hq : floatVal r = q) (hb : |q| < float64OverflowBound) :
    goParseFloat s = some q := by
  simp only [goParseFloat, h, hq]
  rw [if_neg (not_le.mpr hb)]

/-- Evaluation helper: magnitudes up to 2 ^ 64 are well inside the float64 range. -/
theorem abs_lt_float64OverflowBound {q : ℚ} (hlo : -(2 ^ 64) ≤ q) (hhi : q ≤ 2 ^ 64) :
    |q| < float64OverflowBound := by
  have h1 : |q| ≤ 2 ^ 64 := abs_le.mpr ⟨hlo, hhi⟩
  have h2 : (2 ^ 64 : ℚ) < float64OverflowBound := by norm_num [float64OverflowBound]
  linarith

/-- For a negative input the Modf fractional part is nonpositive, hence below one half,
so roundF2I floors. -/
theorem roundF2I_neg (q : ℚ) (hq : q < 0) : roundF2I q (1 / 2) = ⌊q⌋ := by
  have h1 : ratTrunc q = ⌈q⌉ := if_pos hq
  have h2 : ¬ (q - (ratTrunc q : ℚ) ≥ 1 / 2) := by
    rw [h1]
    have hc := Int.le_ceil q
    intro hcon
    linarith
  show (if q - (ratTrunc q : ℚ) ≥ 1 / 2 then ⌈q⌉ else ⌊q⌋) = ⌊q⌋
  rw [if_neg h2]

/-- For a nonnegative input the Modf fractional part is the usual fractional part, and
the ceiling-at-one-half rule coincides with rounding half up. -/
theorem roundF2I_nonneg (q : ℚ) (hq : 0 ≤ q) : roundF2I q (1 / 2) = ⌊q + 1 / 2⌋ := by
  have h1 : ratTrunc q = ⌊q⌋ := if_neg (not_lt.mpr hq)
  show (if q - (ratTrunc q : ℚ) ≥ 1 / 2 then ⌈q⌉ else ⌊q⌋) = ⌊q + 1 / 2⌋
  rw [h1]
  have hfl : (⌊q⌋ : ℚ) ≤ q := Int.floor_le q
  have hlt : q < (⌊q⌋ : ℚ) + 1 := Int.lt_floor_add_one q
  by_cases h : q - (⌊q⌋ : ℚ) ≥ 1 / 2
  · rw [if_pos h]
    have hceil : ⌈q⌉ = ⌊q⌋ + 1 := by
      rw [Int.ceil_eq_iff]
      constructor
      · push_cast
        linarith
      · push_cast
        linarith
    have hfl2 : ⌊q + 1 / 2⌋ = ⌊q⌋ + 1 := by
      rw [Int.floor_eq_iff]
      constructor
      · push_cast
        linarith
      · push_cast
        linarith
    rw [hceil, hfl2]
  · rw [if_neg h]
    push_neg at h
    have hfl2 : ⌊q + 1 / 2⌋ = ⌊q⌋ := by
      rw [Int.floor_eq_iff]
      exact ⟨by linarith, by linarith⟩
    rw [hfl2]

/-- C2 counterexample: the rounding function applied to -1.5 yields -2, not the -1 the
claim states: Go Modf reports the fractional part -0.5, which is below 0.5, so the value
is floored. -/
theorem c2_counterexample :
    roundF2I (-(3 / 2) : ℚ) (1 / 2) = -2 ∧ roundF2I (-(3 / 2) : ℚ) (1 / 2) ≠ -1 := by
  have h : roundF2I (-(3 / 2) : ℚ) (1 / 2) = ⌊(-(3 / 2) : ℚ)⌋ := roundF2I_neg _ (by norm_num)
  have h2 : ⌊(-(3 / 2) : ℚ)⌋ = -2 := by norm_num
  rw [h, h2]
  exact ⟨rfl, by decide⟩

/-- C2 (amended): the rounding function maps 5.5 to 6, 5.49 to 5, and -1.5 to -2. The
rule is ceiling when the signed Modf fractional part (carrying the sign of the input) is
at least 0.5, floor otherwise: nonnegative quotients round half up, negative quotients
always floor. -/
theorem c2_round_rule :
    roundF2I (11 / 2 : ℚ) (1 / 2) = 6 ∧ roundF2I (549 / 100 : ℚ) (1 / 2) = 5 ∧
      roundF2I (-(3 / 2) : ℚ) (1 / 2) = -2 ∧
      (∀ q : ℚ, 0 ≤ q → roundF2I q (1 / 2) = ⌊q + 1 / 2⌋) ∧
      (∀ q : ℚ, q < 0 → roundF2I q (1 / 2) = ⌊q⌋) := by
  refine ⟨?_, ?_, ?_, roundF2I_nonneg, roundF2I_neg⟩
  · rw [roundF2I_nonneg _ (by norm_num)]
    norm_num
  · rw [roundF2I_nonneg _ (by norm_num)]
    norm_num
  · rw [roundF2I_neg _ (by norm_num)]
    norm_num

/-- Witness for c2_round_rule: the two conditional rules at concrete inputs. -/
theorem c2_round_rule_witness :
    roundF2I (9 / 4 : ℚ) (1 / 2) = ⌊(9 / 4 : ℚ) + 1 / 2⌋ ∧
      roundF2I (-(7 / 3) : ℚ) (1 / 2) = ⌊(-(7 / 3) : ℚ)⌋ :=
  ⟨c2_round_rule.2.2.2.1 (9 / 4) (by norm_num), c2_round_rule.2.2.2.2 (-(7 / 3)) (by norm_num)⟩

/-- C4 counterexample: the attempted integer parse is not base-10: the hex literal 0x2A
is classified Integer 42 by the code (ParseInt runs with base 0, honoring the 0x
prefix), while under the claimed base-10-first classification it is String (both the
base-10 integer parse and the float parse fail on it). -/
theorem c4_counterexample :
    classify "0x2A" = GoVal.vInt 42 ∧ classifySpecC4 "0x2A" = GoVal.vStr "0x2A" ∧
      classify "0x2A" ≠ classifySpecC4 "0x2A" := by
  refine ⟨by decide, by decide, by decide⟩

/-- C4 (amended): classification of a raw cell is total and ordered with the integer
parse attempted first and no error ever signaled, but the integer parse is Go ParseInt
with base 0 (base prefixes 0b/0o/0x and legacy leading-zero octal accepted) rather than
a plain base-10 parse: integer parse success gives Integer, else float parse success
gives Float, else String. In particular 42 and -7 classify as Integer, 42.0 as Float and
abc as String. -/
theorem c4_classification_order :
    (∀ s : String,
      classify s =
        match goParseInt s with
        | some n => GoVal.vInt n
        | none =>
          match goParseFloat s with
          | some q => GoVal.vFloat q
          | none => GoVal.vStr s) ∧
      classify "42" = GoVal.vInt 42 ∧ classify "-7" = GoVal.vInt (-7) ∧
      classify "42.0" = GoVal.vFloat 42 ∧ classify "abc" = GoVal.vStr "abc" := by
  have hgen : ∀ s : String,
      classify s =
        match goParseInt s with
        | some n => GoVal.vInt n
        | none =>
          match goParseFloat s with
          | some q => GoVal.vFloat q
          | none => GoVal.vStr s := by
    intro s
    unfold classify classifyTy
    cases hI : goParseInt s <;> cases hF : goParseFloat s <;>
      simp [hI, hF, columnTypeInt, columnTypeFloat, columnTypeString]
  have h420 : goParseFloat "42.0" = some 42 :=
    goParseFloat_eval "42.0" (false, false, 420, 1, 0) 42 (by decide) (by norm_num [floatVal])
      (abs_lt_float64OverflowBound (by norm_num) (by norm_num))
  refine ⟨hgen, ?_, ?_, ?_, ?_⟩
  · rw [hgen]
    simp [show goParseInt "42" = some 42 from by decide]
  · rw [hgen]
    simp [show goParseInt "-7" = some (-7) from by decide]
  · rw [hgen]
    simp [show goParseInt "42.0" = none from by decide, h420]
  · rw [hgen]
    simp [show goParseInt "abc" = none from by decide,
      show goParseFloat "abc" = none from by decide]

/-- The getKeyFromRow loop computes the spec concatenation after its accumulator, and
finds a key exactly when some column carries the key suffix. -/
theorem getKeyFromRowLoop_spec (bt : BT) :
    ∀ (l : List (String × String)) (acc : String) (kf : Bool),
      getKeyFromRowLoop bt l acc kf =
        (acc ++ specC8KeyVals bt l, kf || l.any (fun p => hasSuffix p.1 bt.deltaKeyWildcard))
  | [], acc, kf => by
    simp [getKeyFromRowLoop, specC8KeyVals, String.append_empty]
  | p :: rest, acc, kf => by
    cases h : hasSuffix p.1 bt.deltaKeyWildcard <;>
      simp [getKeyFromRowLoop, specC8KeyVals, h, getKeyFromRowLoop_spec bt rest,
        String.append_assoc, String.empty_append]

/-- getKeyFromRow succeeds exactly on rows with a key-marked column, returning the spec
concatenation. -/
theorem getKeyFromRow_eq (bt : BT) (values columns : List String) :
    getKeyFromRow bt values columns =
      if (columns.zip values).any (fun p => hasSuffix p.1 bt.deltaKeyWildcard) then
        .ok (specC8KeyVals bt (columns.zip values))
      else .error keyErrMsg := by
  simp only [getKeyFromRow, getKeyFromRowLoop_spec bt, Bool.false_or, String.empty_append]

/-- A list has a satisfying element exactly when its filtrate is nonempty. -/
theorem any_eq_filter {α : Type} (p : α → Bool) :
    ∀ l : List α, l.any p = !(l.filter p).isEmpty
  | [] => rfl
  | a :: l => by
    cases h : p a <;> simp [List.any_cons, List.filter_cons, h, any_eq_filter p l]

/-- The spec concatenation ignores the cells of non-key-marked columns. -/
theorem specC8KeyVals_filter (bt : BT) :
    ∀ l : List (String × String),
      specC8KeyVals bt l =
        specC8KeyVals bt (l.filter (fun p => hasSuffix p.1 bt.deltaKeyWildcard))
  | [] => rfl
  | p :: rest => by
    have ih := specC8KeyVals_filter bt rest
    cases h : hasSuffix p.1 bt.deltaKeyWildcard
    · simp only [specC8KeyVals, h, List.filter_cons]
      simp [ih, String.empty_append]
    · simp only [specC8KeyVals, h, List.filter_cons]
      simp [ih]

/-- The spec concatenation depends only on the key-marked cells. -/
theorem specC8KeyVals_congr (bt : BT) (l1 l2 : List (String × String))
    (h : l1.filter (fun p => hasSuffix p.1 bt.deltaKeyWildcard) =
      l2.filter (fun p => hasSuffix p.1 bt.deltaKeyWildcard)) :
    specC8KeyVals bt l1 = specC8KeyVals bt l2 := by
  rw [specC8KeyVals_filter bt l1, specC8KeyVals_filter bt l2, h]

/-- C8 counterexample: two rows sharing the key-marked value a but carrying different
delta column values 5 and 9 derive the same MetricKey acnt__DELTA for the delta column,
not independent ones: the MetricKey never depends on the delta column value. -/
theorem c8_counterexample :
    (getKeyFromRow btDefault ["a", "5"] ["id__DELTAKEY", "cnt__DELTA"]).map
        (fun k => k ++ "cnt__DELTA") = Except.ok "acnt__DELTA" ∧
      (getKeyFromRow btDefault ["a", "9"] ["id__DELTAKEY", "cnt__DELTA"]).map
        (fun k => k ++ "cnt__DELTA") = Except.ok "acnt__DELTA" ∧
      ("5" : String) ≠ "9" := by
  refine ⟨by decide, by decide, by decide⟩

/-- C8 (amended): the MetricKey of a delta-marked column of a multiple-rows row is the
concatenation, in column order, of the raw values of all key-marked columns, with the
delta column name appended; hence the key does not depend on the delta column values:
two rows agreeing on every key-marked cell derive the same MetricKey for a given delta
column (a shared baseline), and independence requires differing key-marked values or
different delta column names. -/
theorem c8_multirow_keying :
    (∀ (bt : BT) (values columns : List String),
      (columns.zip values).any (fun p => hasSuffix p.1 bt.deltaKeyWildcard) = true →
      getKeyFromRow bt values columns = .ok (specC8KeyVals bt (columns.zip values))) ∧
    (∀ (bt : BT) (columns v1 v2 : List String) (colName : String),
      (columns.zip v1).filter (fun p => hasSuffix p.1 bt.deltaKeyWildcard) =
        (columns.zip v2).filter (fun p => hasSuffix p.1 bt.deltaKeyWildcard) →
      (getKeyFromRow bt v1 columns).map (fun k => k ++ colName) =
        (getKeyFromRow bt v2 columns).map (fun k => k ++ colName)) := by
  constructor
  · intro bt values columns h
    rw [getKeyFromRow_eq]
    simp [h]
  · intro bt columns v1 v2 colName h
    have hany : (columns.zip v1).any (fun p => hasSuffix p.1 bt.deltaKeyWildcard) =
        (columns.zip v2).any (fun p => hasSuffix p.1 bt.deltaKeyWildcard) := by
      rw [any_eq_filter, any_eq_filter, h]
    rw [getKeyFromRow_eq, getKeyFromRow_eq, specC8KeyVals_congr bt _ _ h, hany]

/-- Witness for c8_multirow_keying: a concrete key derivation, and the key equality of
two rows differing only in the delta column cell. -/
theorem c8_multirow_keying_witness :
    getKeyFromRow btDefault ["a", "5"] ["id__DELTAKEY", "cnt__DELTA"] =
        .ok (specC8KeyVals btDefault (["id__DELTAKEY", "cnt__DELTA"].zip ["a", "5"])) ∧
      (getKeyFromRow btDefault ["a", "5"] ["id__DELTAKEY", "cnt__DELTA"]).map
          (fun k => k ++ "cnt__DELTA") =
        (getKeyFromRow btDefault ["a", "9"] ["id__DELTAKEY", "cnt__DELTA"]).map
          (fun k => k ++ "cnt__DELTA") :=
  ⟨c8_multirow_keying.1 btDefault ["a", "5"] ["id__DELTAKEY", "cnt__DELTA"] (by decide),
   c8_multirow_keying.2 btDefault ["id__DELTAKEY", "cnt__DELTA"] ["a", "5"] ["a", "9"]
     "cnt__DELTA" (by decide)⟩

/-- A column without the delta suffix never fails processColumn in the multiple-rows
shape (only key derivation for delta columns can fail). -/
theorem processColumn_ok_of_not_delta (bt : BT) (values columns : List String) (rowAge : ℚ)
    (acc : Store × Cache) (strColName strColValue : String)
    (h : hasSuffix strColName bt.deltaWildcard = false) :
    ∃ acc1,
      processColumn bt .multipleRows values columns rowAge acc strColName strColValue =
        .ok acc1 := by
  unfold processColumn
  rw [if_neg (by simp), if_neg (by simp [h])]
  exact ⟨_, rfl⟩

/-- A delta column propagates a key-derivation failure out of processColumn. -/
theorem processColumn_keyError (bt : BT) (values columns : List String) (rowAge : ℚ)
    (acc : Store × Cache) (strColName strColValue : String)
    (hd : hasSuffix strColName bt.deltaWildcard = true)
    (hkey : getKeyFromRow bt values columns = .error keyErrMsg) :
    processColumn bt .multipleRows values columns rowAge acc strColName strColValue =
      .error keyErrMsg := by
  unfold processColumn
  rw [if_neg (by simp), if_pos (by simp [hd]), if_neg (by simp), hkey]
  rfl

/-- The column loop of a multiple-rows row that contains a delta-marked column fails as
soon as key derivation fails, whatever the accumulated event and cache are. -/
theorem foldlM_keyError (bt : BT) (values columns : List String) (rowAge : ℚ)
    (hkey : getKeyFromRow bt values columns = .error keyErrMsg) :
    ∀ (l : List (String × String)) (acc : Store × Cache),
      (∃ p ∈ l, hasSuffix p.1 bt.deltaWildcard = true) →
      l.foldlM
          (fun acc p => processColumn bt .multipleRows values columns rowAge acc p.1 p.2)
          acc =
        .error keyErrMsg
  | [], acc, h => absurd h (by simp)
  | p :: rest, acc, h => by
    rw [List.foldlM_cons]
    cases hd : hasSuffix p.1 bt.deltaWildcard
    · obtain ⟨acc1, hok⟩ :=
        processColumn_ok_of_not_delta bt values columns rowAge acc p.1 p.2 hd
      rw [hok]
      obtain ⟨q, hq, hqd⟩ := h
      rcases List.mem_cons.mp hq with hq1 | hq2
      · exact absurd hqd (by rw [hq1, hd]; decide)
      · exact foldlM_keyError bt values columns rowAge hkey rest acc1 ⟨q, hq2, hqd⟩
    · rw [processColumn_keyError bt values columns rowAge acc p.1 p.2 hd hkey]
      rfl

/-- A multiple-rows row with a delta-marked column and no key-marked column fails event
generation with the key-derivation error, leaving the cache untouched. -/
theorem generateEventFromRow_keyError (bt : BT) (values columns : List String) (rowAge : ℚ)
    (st : Cache) (hnokey : ∀ c ∈ columns, hasSuffix c bt.deltaKeyWildcard = false)
    (hdelta : ∃ p ∈ columns.zip values, hasSuffix p.1 bt.deltaWildcard = true) :
    generateEventFromRow bt values columns .multipleRows rowAge st = .error keyErrMsg := by
  have hkey : getKeyFromRow bt values columns = .error keyErrMsg := by
    rw [getKeyFromRow_eq]
    have hany : (columns.zip values).any (fun p => hasSuffix p.1 bt.deltaKeyWildcard) = false := by
      rw [List.any_eq_false]
      intro p hp
      rw [hnokey p.1 (List.of_mem_zip hp).1]
      decide
    simp [hany]
  unfold generateEventFromRow generateEventFromRowCore
  rw [foldlM_keyError bt values columns rowAge hkey _ _ hdelta]
  rfl

/-- The multiple-rows loop stops at a failing row: the error is recorded once and the
remaining rows and the cache are left untouched. -/
theorem loopRowsMultiple_break (bt : BT) (server : String) (columns : List String)
    (dtNow : ℚ) (r : List String) (rest : List (List String)) (st : Cache) (e : String)
    (h : generateEventFromRow bt r columns .multipleRows dtNow st = .error e) :
    loopRowsMultiple bt server columns dtNow (r :: rest) st = ([], [e], st) := by
  simp only [loopRowsMultiple, h]

/-- C3 counterexample: a query whose rows all fail key derivation. The code logs one
error and stops after the first row, where the loop the claim describes (continue with
the next row) attempts and logs both rows; the two disagree at this input. -/
theorem c3_counterexample :
    (loopRowsMultiple btDefault "db1" ["cnt__DELTA"] 10 [["1"], ["2"]] initCache).2.1 =
        [keyErrMsg] ∧
      (loopRowsMultipleSpecC3 btDefault "db1" ["cnt__DELTA"] 10 [["1"], ["2"]]
            initCache).2.1 =
        [keyErrMsg, keyErrMsg] ∧
      loopRowsMultiple btDefault "db1" ["cnt__DELTA"] 10 [["1"], ["2"]] initCache ≠
        loopRowsMultipleSpecC3 btDefault "db1" ["cnt__DELTA"] 10 [["1"], ["2"]] initCache := by
  refine ⟨by decide, by decide, by decide⟩

/-- C3 (amended): a failure generating the event of one multiple-rows row is logged and
aborts the remaining rows of that query (the row loop breaks), rather than continuing
with the next row; the cache is left as before the failing row, and the error is not
propagated to the caller of the query loop. -/
theorem c3_row_error_breaks :
    ∀ (bt : BT) (server : String) (columns : List String) (dtNow : ℚ) (r : List String)
      (rest : List (List String)) (st : Cache) (e : String),
      generateEventFromRow bt r columns .multipleRows dtNow st = .error e →
      loopRowsMultiple bt server columns dtNow (r :: rest) st = ([], [e], st) :=
  fun bt server columns dtNow r rest st e h =>
    loopRowsMultiple_break bt server columns dtNow r rest st e h

/-- Witness for c3_row_error_breaks: two failing rows, of which only the first is
attempted. -/
theorem c3_row_error_breaks_witness :
    loopRowsMultiple btDefault "db1" ["cnt__DELTA"] 10 [["1"], ["2"]] initCache =
      ([], [keyErrMsg], initCache) :=
  c3_row_error_breaks btDefault "db1" ["cnt__DELTA"] 10 ["1"] [["2"]] initCache keyErrMsg
    (by decide)

/-- C5 counterexample: a three-row result set with a delta-marked column and no
key-marked column produces exactly one key-derivation error, not one per row: the loop
breaks on the first row and the other two rows are never processed. -/
theorem c5_counterexample :
    (loopRowsMultiple btDefault "srv" ["x__DELTA"] 7 [["3"], ["4"], ["5"]]
          initCache).2.1.length = 1 ∧
      (1 : Nat) ≠ 3 := by
  refine ⟨by decide, by decide⟩

/-- C5 (amended): a multiple-rows row holding a delta-marked column but no key-marked
column fails with the descriptive key-derivation error; because the row loop breaks on
the first error, the error occurs once per query execution (on the first row processed),
the remaining rows not being processed at all. -/
theorem c5_key_missing :
    (∀ (bt : BT) (values columns : List String) (rowAge : ℚ) (st : Cache),
      (∀ c ∈ columns, hasSuffix c bt.deltaKeyWildcard = false) →
      (∃ p ∈ columns.zip values, hasSuffix p.1 bt.deltaWildcard = true) →
      generateEventFromRow bt values columns .multipleRows rowAge st = .error keyErrMsg) ∧
    (∀ (bt : BT) (server : String) (columns : List String) (dtNow : ℚ) (r : List String)
        (rest : List (List String)) (st : Cache),
      generateEventFromRow bt r columns .multipleRows dtNow st = .error keyErrMsg →
      loopRowsMultiple bt server columns dtNow (r :: rest) st = ([], [keyErrMsg], st)) :=
  ⟨fun bt values columns rowAge st h1 h2 =>
    generateEventFromRow_keyError bt values columns rowAge st h1 h2,
   fun bt server columns dtNow r rest st h =>
    loopRowsMultiple_break bt server columns dtNow r rest st keyErrMsg h⟩

/-- Witness for c5_key_missing: a concrete keyless delta row fails, and a loop starting
with it records the single error. -/
theorem c5_key_missing_witness :
    generateEventFromRow btDefault ["3"] ["x__DELTA"] .multipleRows 7 initCache =
        .error keyErrMsg ∧
      loopRowsMultiple btDefault "srv" ["x__DELTA"] 7 [["3"], ["4"], ["5"]] initCache =
        ([], [keyErrMsg], initCache) :=
  ⟨c5_key_missing.1 btDefault ["3"] ["x__DELTA"] 7 initCache (by decide) (by decide),
   c5_key_missing.2 btDefault "srv" ["x__DELTA"] 7 ["3"] [["4"], ["5"]] initCache
     (by decide)⟩

/-- A cell parsed by ParseInt is typed Integer, whatever ParseFloat does. -/
theorem classifyTy_int {s : String} {c : Int} (h : goParseInt s = some c) :
    classifyTy s = columnTypeInt := by
  unfold classifyTy
  simp [h, columnTypeInt, columnTypeString]

/-- A cell rejected by ParseInt but parsed by ParseFloat is typed Float. -/
theorem classifyTy_float {s : String} {q : ℚ} (h : goParseInt s = none)
    (hf : goParseFloat s = some q) : classifyTy s = columnTypeFloat := by
  unfold classifyTy
  simp [h, hf, columnTypeFloat, columnTypeString]

/-- A cell rejected by both parses is typed String. -/
theorem classifyTy_string {s : String} (h : goParseInt s = none)
    (hf : goParseFloat s = none) : classifyTy s = columnTypeString := by
  unfold classifyTy
  simp [h, hf]

/-- Every cell gets one of the three types. -/
theorem classifyTy_cases (s : String) :
    classifyTy s = columnTypeString ∨ classifyTy s = columnTypeInt ∨
      classifyTy s = columnTypeFloat := by
  unfold classifyTy
  cases hI : (goParseInt s).isSome <;> cases hF : (goParseFloat s).isSome <;>
    simp [hI, hF, columnTypeString, columnTypeInt, columnTypeFloat]

/-- For the single-row shape a delta-marked column goes straight into the delta branch,
keyed by its own name. -/
theorem processColumn_delta_single (bt : BT) (values columns : List String) (rowAge : ℚ)
    (event : Store) (st : Cache) (strColName strColValue : String)
    (hsuf : hasSuffix strColName bt.deltaWildcard = true) :
    processColumn bt .singleRow values columns rowAge (event, st) strColName strColValue =
      .ok
        (deltaBranch strColName (renameColumn bt strColName) strColValue
          (classifyTy strColValue) ((goParseInt strColValue).getD 0)
          ((goParseFloat strColValue).getD 0) rowAge event st) := by
  unfold processColumn
  rw [if_neg (by simp), if_pos (by simp [hsuf]), if_pos rfl]

/-- C6 (confirmed): on the first observation of a MetricKey (no cache entry exists; the
single-row shape keys the column by its own name), nothing is emitted for the column
and the classified current value with the current row timestamp is stored as the
cold-start baseline. -/
theorem c6_cold_start :
    ∀ (bt : BT) (values columns : List String) (rowAge : ℚ) (st : Cache) (event : Store)
      (strColName strColValue : String),
      hasSuffix strColName bt.deltaWildcard = true →
      mget st.oldValues strColName = none →
      processColumn bt .singleRow values columns rowAge (event, st) strColName
          strColValue =
        .ok
          (event,
           ⟨mset st.oldValues strColName (classify strColValue),
            mset st.oldValuesAge strColName (.vTime rowAge)⟩) := by
  intro bt values columns rowAge st event strColName strColValue hsuf hnone
  rw [processColumn_delta_single bt values columns rowAge event st strColName strColValue
    hsuf]
  unfold deltaBranch
  rw [hnone]
  rcases classifyTy_cases strColValue with h | h | h <;>
    simp [h, classify, columnTypeString, columnTypeInt, columnTypeFloat]

/-- Witness for c6_cold_start: the first sighting of column c__DELTA stores the baseline
and emits nothing. -/
theorem c6_cold_start_witness :
    processColumn btDefault .singleRow ["5"] ["c__DELTA"] 3 ([], initCache) "c__DELTA"
        "5" =
      .ok
        ([],
         ⟨mset initCache.oldValues "c__DELTA" (classify "5"),
          mset initCache.oldValuesAge "c__DELTA" (.vTime 3)⟩) :=
  c6_cold_start btDefault ["5"] ["c__DELTA"] 3 initCache [] "c__DELTA" "5" (by decide)
    (by decide)

/-- C9 (confirmed): when the cached previous value has a different dynamic type than the
current cell (single-row shape shown; the delta branch is shared), the failed type
assertion silently yields the zero value, no error is raised, the rate is computed from
a zero baseline — curr / elapsedSeconds when curr is positive (rounded by the integer
policy for Integer cells), zero otherwise — and the cache entry is overwritten with the
current value and timestamp. -/
theorem c9_type_mismatch :
    (∀ (bt : BT) (values columns : List String) (t0 t1 : ℚ) (st : Cache) (event : Store)
        (strColName raw : String) (c : Int) (w : GoVal),
      hasSuffix strColName bt.deltaWildcard = true →
      goParseInt raw = some c →
      mget st.oldValues strColName = some w →
      (∀ m : Int, w ≠ .vInt m) →
      mget st.oldValuesAge strColName = some (.vTime t0) →
      processColumn bt .singleRow values columns t1 (event, st) strColName raw =
        .ok
          (mset event (renameColumn bt strColName)
            (.vInt (if 0 < c then roundF2I ((c : ℚ) / (t1 - t0)) (1 / 2) else 0)),
           ⟨mset st.oldValues strColName (.vInt c),
            mset st.oldValuesAge strColName (.vTime t1)⟩)) ∧
    (∀ (bt : BT) (values columns : List String) (t0 t1 : ℚ) (st : Cache) (event : Store)
        (strColName raw : String) (fq : ℚ) (w : GoVal),
      hasSuffix strColName bt.deltaWildcard = true →
      goParseInt raw = none →
      goParseFloat raw = some fq →
      mget st.oldValues strColName = some w →
      (∀ m : ℚ, w ≠ .vFloat m) →
      mget st.oldValuesAge strColName = some (.vTime t0) →
      processColumn bt .singleRow values columns t1 (event, st) strColName raw =
        .ok
          (mset event (renameColumn bt strColName)
            (.vFloat (if 0 < fq then fq / (t1 - t0) else 0)),
           ⟨mset st.oldValues strColName (.vFloat fq),
            mset st.oldValuesAge strColName (.vTime t1)⟩)) := by
  constructor
  · intro bt values columns t0 t1 st event strColName raw c w hsuf hParse hold hw hage
    rw [processColumn_delta_single bt values columns t1 event st strColName raw hsuf]
    unfold deltaBranch
    rcases w with m | q | s2 | t
    · exact absurd rfl (hw m)
    all_goals
      simp [hold, hage, classifyTy_int hParse, hParse, columnTypeInt, columnTypeString,
        columnTypeFloat, sub_zero]
  · intro bt values columns t0 t1 st event strColName raw fq w hsuf hInt hFloat hold hw
      hage
    rw [processColumn_delta_single bt values columns t1 event st strColName raw hsuf]
    unfold deltaBranch
    rcases w with m | q | s2 | t
    case vFloat => exact absurd rfl (hw q)
    all_goals
      simp [hold, hage, classifyTy_float hInt hFloat, hInt, hFloat, columnTypeInt,
        columnTypeString, columnTypeFloat, sub_zero]

/-- Witness for c9_type_mismatch: a string-typed baseline with an integer current cell,
and an integer-typed baseline with a float current cell. -/
theorem c9_type_mismatch_witness :
    processColumn btDefault .singleRow ["5"] ["c__DELTA"] 2
        ([], ⟨[("c__DELTA", .vStr "x")], [("c__DELTA", .vTime 0)]⟩) "c__DELTA" "5" =
      .ok
        (mset [] (renameColumn btDefault "c__DELTA")
          (.vInt (if 0 < (5 : Int) then roundF2I (((5 : Int) : ℚ) / (2 - 0)) (1 / 2)
            else 0)),
         ⟨mset [("c__DELTA", .vStr "x")] "c__DELTA" (.vInt 5),
          mset [("c__DELTA", .vTime 0)] "c__DELTA" (.vTime 2)⟩) ∧
    processColumn btDefault .singleRow ["2.5"] ["c__DELTA"] 2
        ([], ⟨[("c__DELTA", .vInt 7)], [("c__DELTA", .vTime 0)]⟩) "c__DELTA" "2.5" =
      .ok
        (mset [] (renameColumn btDefault "c__DELTA")
          (.vFloat (if 0 < (5 / 2 : ℚ) then (5 / 2 : ℚ) / (2 - 0) else 0)),
         ⟨mset [("c__DELTA", .vInt 7)] "c__DELTA" (.vFloat (5 / 2)),
          mset [("c__DELTA", .vTime 0)] "c__DELTA" (.vTime 2)⟩) :=
  ⟨c9_type_mismatch.1 btDefault ["5"] ["c__DELTA"] 0 2
      ⟨[("c__DELTA", .vStr "x")], [("c__DELTA", .vTime 0)]⟩ [] "c__DELTA" "5" 5
      (.vStr "x") (by decide) (by decide) (by decide) (fun m h => by cases h) (by decide),
   c9_type_mismatch.2 btDefault ["2.5"] ["c__DELTA"] 0 2
      ⟨[("c__DELTA", .vInt 7)], [("c__DELTA", .vTime 0)]⟩ [] "c__DELTA" "2.5" (5 / 2)
      (.vInt 7) (by decide) (by decide)
      (goParseFloat_eval "2.5" (false, false, 25, 1, 0) (5 / 2) (by decide)
        (by norm_num [floatVal])
        (abs_lt_float64OverflowBound (by norm_num) (by norm_num)))
      (by decide) (fun m h => by cases h) (by decide)⟩

/-- C10 (confirmed): a delta-marked column whose current cell classifies as String while
a cache entry exists is passed through: the raw current string is emitted under the
renamed column (delta suffix replaced by _PERSECOND) and neither the stored value nor
the stored timestamp is overwritten. -/
theorem c10_string_passthrough :
    ∀ (bt : BT) (values columns : List String) (t0 t1 : ℚ) (st : Cache) (event : Store)
      (strColName raw : String) (w : GoVal),
      hasSuffix strColName bt.deltaWildcard = true →
      hasSuffix strColName bt.deltaKeyWildcard = false →
      goParseInt raw = none →
      goParseFloat raw = none →
      mget st.oldValues strColName = some w →
      mget st.oldValuesAge strColName = some (.vTime t0) →
      processColumn bt .singleRow values columns t1 (event, st) strColName raw =
        .ok
          (mset event (replaceFirst strColName bt.deltaWildcard "_PERSECOND")
            (.vStr raw),
           st) := by
  intro bt values columns t0 t1 st event strColName raw w hsuf hnk hInt hFloat hold hage
  rw [processColumn_delta_single bt values columns t1 event st strColName raw hsuf]
  unfold deltaBranch
  have hren : renameColumn bt strColName =
      replaceFirst strColName bt.deltaWildcard "_PERSECOND" := by
    unfold renameColumn
    rw [hnk]
    simp [hsuf]
  simp [hold, hage, classifyTy_string hInt hFloat, columnTypeInt, columnTypeString,
    columnTypeFloat, hren]

/-- Witness for c10_string_passthrough: a string cell on a warm key emits the raw string
and leaves the cache untouched. -/
theorem c10_string_passthrough_witness :
    processColumn btDefault .singleRow ["abc"] ["c__DELTA"] 4
        ([], ⟨[("c__DELTA", .vInt 7)], [("c__DELTA", .vTime 1)]⟩) "c__DELTA" "abc" =
      .ok
        (mset [] (replaceFirst "c__DELTA" "__DELTA" "_PERSECOND") (.vStr "abc"),
         ⟨[("c__DELTA", .vInt 7)], [("c__DELTA", .vTime 1)]⟩) :=
  c10_string_passthrough btDefault ["abc"] ["c__DELTA"] 1 4
    ⟨[("c__DELTA", .vInt 7)], [("c__DELTA", .vTime 1)]⟩ [] "c__DELTA" "abc" (.vInt 7)
    (by decide) (by decide) (by decide) (by decide) (by decide) (by decide)

/-- A one-element fold runs its function once. -/
theorem foldlM_singleton {α β : Type} (f : β → α → Except String β) (b : β) (a : α) :
    [a].foldlM f b = f b a := by
  rw [List.foldlM_cons]
  cases f b a <;> rfl

/-- A one-column row generates its event from the single processColumn step, suppressed
when nothing beyond the scaffolding was added. -/
theorem generateEventFromRow_single (bt : BT) (colName raw : String)
    (queryType : QueryType) (rowAge : ℚ) (st : Cache) (ev1 : Store) (st1 : Cache)
    (h : processColumn bt queryType [raw] [colName] rowAge (eventInit queryType rowAge, st)
        colName raw = .ok (ev1, st1)) :
    generateEventFromRow bt [raw] [colName] queryType rowAge st =
      .ok (if mlen ev1 = 2 then none else some ev1, st1) := by
  have hcore :
      generateEventFromRowCore bt [raw] [colName] queryType rowAge st = .ok (ev1, st1) := by
    unfold generateEventFromRowCore
    rw [show ([colName].zip [raw]) = [(colName, raw)] from rfl, foldlM_singleton]
    exact h
  unfold generateEventFromRow
  rw [hcore]
  rfl

/-- The delta rename applies when the key suffix is absent and the delta suffix
present. -/
theorem renameColumn_delta (bt : BT) (strColName : String)
    (hsuf : hasSuffix strColName bt.deltaWildcard = true)
    (hnk : hasSuffix strColName bt.deltaKeyWildcard = false) :
    renameColumn bt strColName = replaceFirst strColName bt.deltaWildcard "_PERSECOND" := by
  unfold renameColumn
  rw [hnk]
  simp [hsuf]

/-- C1 helper, Integer case: with an Integer baseline and an Integer current cell, the
emitted rate is the round-half-up quotient under the reset guard, and the snapshot is
overwritten. -/
theorem c1aux_int (bt : BT) (values columns : List String) (t0 t1 : ℚ) (st : Cache)
    (event : Store) (strColName raw : String) (p c : Int)
    (hsuf : hasSuffix strColName bt.deltaWildcard = true)
    (hnk : hasSuffix strColName bt.deltaKeyWildcard = false)
    (hParse : goParseInt raw = some c)
    (hold : mget st.oldValues strColName = some (.vInt p))
    (hage : mget st.oldValuesAge strColName = some (.vTime t0)) (ht : t0 < t1) :
    processColumn bt .singleRow values columns t1 (event, st) strColName raw =
      .ok
        (mset event (replaceFirst strColName bt.deltaWildcard "_PERSECOND")
          (.vInt (if p < c then ⌊((c - p : Int) : ℚ) / (t1 - t0) + 1 / 2⌋ else 0)),
         ⟨mset st.oldValues strColName (.vInt c),
          mset st.oldValuesAge strColName (.vTime t1)⟩) := by
  rw [processColumn_delta_single bt values columns t1 event st strColName raw hsuf]
  unfold deltaBranch
  simp only [hold, hage, classifyTy_int hParse, hParse, Option.getD_some,
    renameColumn_delta bt strColName hsuf hnk]
  by_cases hpc : p < c
  · have hq : (0 : ℚ) ≤ ((c - p : Int) : ℚ) / (t1 - t0) := by
      apply div_nonneg
      · exact_mod_cast Int.sub_nonneg.mpr (le_of_lt hpc)
      · linarith
    rw [if_pos hpc, if_pos hpc, roundF2I_nonneg _ hq]
    simp
  · rw [if_neg hpc, if_neg hpc]
    simp

/-- C1 helper, Float case: with a Float baseline and a Float current cell, the emitted
rate is the exact quotient under the reset guard, and the snapshot is overwritten. -/
theorem c1aux_float (bt : BT) (values columns : List String) (t0 t1 : ℚ) (st : Cache)
    (event : Store) (strColName raw : String) (pq cq : ℚ)
    (hsuf : hasSuffix strColName bt.deltaWildcard = true)
    (hnk : hasSuffix strColName bt.deltaKeyWildcard = false)
    (hInt : goParseInt raw = none) (hFloat : goParseFloat raw = some cq)
    (hold : mget st.oldValues strColName = some (.vFloat pq))
    (hage : mget st.oldValuesAge strColName = some (.vTime t0)) (_ht : t0 < t1) :
    processColumn bt .singleRow values columns t1 (event, st) strColName raw =
      .ok
        (mset event (replaceFirst strColName bt.deltaWildcard "_PERSECOND")
          (.vFloat (if pq < cq then (cq - pq) / (t1 - t0) else 0)),
         ⟨mset st.oldValues strColName (.vFloat cq),
          mset st.oldValuesAge strColName (.vTime t1)⟩) := by
  rw [processColumn_delta_single bt values columns t1 event st strColName raw hsuf]
  unfold deltaBranch
  simp only [hold, hage, classifyTy_float hInt hFloat, hFloat, Option.getD_some,
    renameColumn_delta bt strColName hsuf hnk]
  simp [columnTypeFloat, columnTypeInt]

/-- C1 (confirmed): for a delta-marked column whose current and cached previous values
are numeric of the same type (single-row shape shown; the delta branch is shared with
the other shapes), the emitted rate under the reset guard curr > prev is
(curr - prev) / elapsedSeconds, rounded half up to an int64 for Integer and exact for
Float; otherwise the rate is the zero of the matching type, and in both cases the
snapshot is overwritten. In particular 100 to 150 over 10 seconds emits Integer 5,
150 to 140 emits Integer 0, and 10.0 to 13.0 over 4 seconds emits Float 0.75 exactly. -/
theorem c1_delta_rate :
    (∀ (bt : BT) (values columns : List String) (t0 t1 : ℚ) (st : Cache) (event : Store)
        (strColName raw : String) (p c : Int),
      hasSuffix strColName bt.deltaWildcard = true →
      hasSuffix strColName bt.deltaKeyWildcard = false →
      goParseInt raw = some c →
      mget st.oldValues strColName = some (.vInt p) →
      mget st.oldValuesAge strColName = some (.vTime t0) →
      t0 < t1 →
      processColumn bt .singleRow values columns t1 (event, st) strColName raw =
        .ok
          (mset event (replaceFirst strColName bt.deltaWildcard "_PERSECOND")
            (.vInt (if p < c then ⌊((c - p : Int) : ℚ) / (t1 - t0) + 1 / 2⌋ else 0)),
           ⟨mset st.oldValues strColName (.vInt c),
            mset st.oldValuesAge strColName (.vTime t1)⟩)) ∧
    (∀ (bt : BT) (values columns : List String) (t0 t1 : ℚ) (st : Cache) (event : Store)
        (strColName raw : String) (pq cq : ℚ),
      hasSuffix strColName bt.deltaWildcard = true →
      hasSuffix strColName bt.deltaKeyWildcard = false →
      goParseInt raw = none →
      goParseFloat raw = some cq →
      mget st.oldValues strColName = some (.vFloat pq) →
      mget st.oldValuesAge strColName = some (.vTime t0) →
      t0 < t1 →
      processColumn bt .singleRow values columns t1 (event, st) strColName raw =
        .ok
          (mset event (replaceFirst strColName bt.deltaWildcard "_PERSECOND")
            (.vFloat (if pq < cq then (cq - pq) / (t1 - t0) else 0)),
           ⟨mset st.oldValues strColName (.vFloat cq),
            mset st.oldValuesAge strColName (.vTime t1)⟩)) ∧
    generateEventFromRow btDefault ["150"] ["cnt__DELTA"] .singleRow 10
        ⟨[("cnt__DELTA", .vInt 100)], [("cnt__DELTA", .vTime 0)]⟩ =
      .ok
        (some [("@timestamp", .vTime 10), ("type", .vStr "single-row"),
           ("cnt_PERSECOND", .vInt 5)],
         ⟨[("cnt__DELTA", .vInt 150)], [("cnt__DELTA", .vTime 10)]⟩) ∧
    generateEventFromRow btDefault ["140"] ["cnt__DELTA"] .singleRow 10
        ⟨[("cnt__DELTA", .vInt 150)], [("cnt__DELTA", .vTime 0)]⟩ =
      .ok
        (some [("@timestamp", .vTime 10), ("type", .vStr "single-row"),
           ("cnt_PERSECOND", .vInt 0)],
         ⟨[("cnt__DELTA", .vInt 140)], [("cnt__DELTA", .vTime 10)]⟩) ∧
    generateEventFromRow btDefault ["13.0"] ["cnt__DELTA"] .singleRow 4
        ⟨[("cnt__DELTA", .vFloat 10)], [("cnt__DELTA", .vTime 0)]⟩ =
      .ok
        (some [("@timestamp", .vTime 4), ("type", .vStr "single-row"),
           ("cnt_PERSECOND", .vFloat (3 / 4))],
         ⟨[("cnt__DELTA", .vFloat 13)], [("cnt__DELTA", .vTime 4)]⟩) := by
  refine ⟨c1aux_int, c1aux_float, ?_, ?_, ?_⟩
  · have e1 := c1aux_int btDefault ["150"] ["cnt__DELTA"] 0 10
      ⟨[("cnt__DELTA", .vInt 100)], [("cnt__DELTA", .vTime 0)]⟩ (eventInit .singleRow 10)
      "cnt__DELTA" "150" 100 150 (by decide) (by decide) (by decide) rfl rfl (by norm_num)
    have hval : (if (100 : Int) < 150 then
        ⌊((150 - 100 : Int) : ℚ) / ((10 : ℚ) - 0) + 1 / 2⌋ else 0) = 5 := by norm_num
    rw [hval] at e1
    have h2 := generateEventFromRow_single btDefault "cnt__DELTA" "150" .singleRow 10
      ⟨[("cnt__DELTA", .vInt 100)], [("cnt__DELTA", .vTime 0)]⟩ _ _ e1
    rw [h2]
    rfl
  · have e2 := c1aux_int btDefault ["140"] ["cnt__DELTA"] 0 10
      ⟨[("cnt__DELTA", .vInt 150)], [("cnt__DELTA", .vTime 0)]⟩ (eventInit .singleRow 10)
      "cnt__DELTA" "140" 150 140 (by decide) (by decide) (by decide) rfl rfl (by norm_num)
    have hval : (if (150 : Int) < 140 then
        ⌊((140 - 150 : Int) : ℚ) / ((10 : ℚ) - 0) + 1 / 2⌋ else 0) = 0 := by norm_num
    rw [hval] at e2
    have h2 := generateEventFromRow_single btDefault "cnt__DELTA" "140" .singleRow 10
      ⟨[("cnt__DELTA", .vInt 150)], [("cnt__DELTA", .vTime 0)]⟩ _ _ e2
    rw [h2]
    rfl
  · have h130 : goParseFloat "13.0" = some 13 :=
      goParseFloat_eval "13.0" (false, false, 130, 1, 0) 13 (by decide)
        (by norm_num [floatVal]) (abs_lt_float64OverflowBound (by norm_num) (by norm_num))
    have e3 := c1aux_float btDefault ["13.0"] ["cnt__DELTA"] 0 4
      ⟨[("cnt__DELTA", .vFloat 10)], [("cnt__DELTA", .vTime 0)]⟩ (eventInit .singleRow 4)
      "cnt__DELTA" "13.0" 10 13 (by decide) (by decide) (by decide) h130 rfl rfl
      (by norm_num)
    have hval : (if (10 : ℚ) < 13 then ((13 : ℚ) - 10) / ((4 : ℚ) - 0) else 0) = 3 / 4 := by
      norm_num
    rw [hval] at e3
    have h2 := generateEventFromRow_single btDefault "cnt__DELTA" "13.0" .singleRow 4
      ⟨[("cnt__DELTA", .vFloat 10)], [("cnt__DELTA", .vTime 0)]⟩ _ _ e3
    rw [h2]
    rfl

/-- Witness for c1_delta_rate: the two conditional rules applied at fresh concrete
inputs (baseline 1 to 4 over 2 seconds, and 0.5 to 2.5 over 4 seconds). -/
theorem c1_delta_rate_witness :
    processColumn btDefault .singleRow ["4"] ["q__DELTA"] 2
        ([], ⟨[("q__DELTA", .vInt 1)], [("q__DELTA", .vTime 0)]⟩) "q__DELTA" "4" =
      .ok
        (mset [] (replaceFirst "q__DELTA" "__DELTA" "_PERSECOND")
          (.vInt (if (1 : Int) < 4 then ⌊((4 - 1 : Int) : ℚ) / ((2 : ℚ) - 0) + 1 / 2⌋
            else 0)),
         ⟨mset [("q__DELTA", .vInt 1)] "q__DELTA" (.vInt 4),
          mset [("q__DELTA", .vTime 0)] "q__DELTA" (.vTime 2)⟩) ∧
    processColumn btDefault .singleRow ["2.5"] ["q__DELTA"] 4
        ([], ⟨[("q__DELTA", .vFloat (1 / 2))], [("q__DELTA", .vTime 0)]⟩) "q__DELTA"
        "2.5" =
      .ok
        (mset [] (replaceFirst "q__DELTA" "__DELTA" "_PERSECOND")
          (.vFloat (if (1 / 2 : ℚ) < 5 / 2 then ((5 / 2 : ℚ) - 1 / 2) / ((4 : ℚ) - 0)
            else 0)),
         ⟨mset [("q__DELTA", .vFloat (1 / 2))] "q__DELTA" (.vFloat (5 / 2)),
          mset [("q__DELTA", .vTime 0)] "q__DELTA" (.vTime 4)⟩) :=
  ⟨c1_delta_rate.1 btDefault ["4"] ["q__DELTA"] 0 2
      ⟨[("q__DELTA", .vInt 1)], [("q__DELTA", .vTime 0)]⟩ [] "q__DELTA" "4" 1 4
      (by decide) (by decide) (by decide) rfl rfl (by norm_num),
   c1_delta_rate.2.1 btDefault ["2.5"] ["q__DELTA"] 0 4
      ⟨[("q__DELTA", .vFloat (1 / 2))], [("q__DELTA", .vTime 0)]⟩ [] "q__DELTA" "2.5"
      (1 / 2) (5 / 2) (by decide) (by decide) (by decide)
      (goParseFloat_eval "2.5" (false, false, 25, 1, 0) (5 / 2) (by decide)
        (by norm_num [floatVal])
        (abs_lt_float64OverflowBound (by norm_num) (by norm_num)))
      rfl rfl (by norm_num)⟩

/-- Map assignment keeps the key list when the key is present and appends it
otherwise. -/
theorem mkeys_mset (m : Store) (k : String) (v : GoVal) :
    mkeys (mset m k v) =
      if m.any (fun p => p.1 == k) then mkeys m else mkeys m ++ [k] := by
  unfold mset mkeys
  by_cases h : m.any (fun p => p.1 == k)
  · rw [if_pos h, if_pos h, List.map_map]
    apply List.map_congr_left
    intro p _
    by_cases hk : p.1 = k
    · simp [hk]
    · simp [hk]
  · rw [if_neg h, if_neg h, List.map_append]
    rfl

/-- Map assignment preserves key membership. -/
theorem mem_mkeys_mset (m : Store) (k : String) (v : GoVal) (x : String)
    (h : x ∈ mkeys m) : x ∈ mkeys (mset m k v) := by
  rw [mkeys_mset]
  by_cases hc : m.any (fun p => p.1 == k) <;> simp [hc, h]

/-- Map assignment preserves distinctness of keys. -/
theorem nodup_mkeys_mset (m : Store) (k : String) (v : GoVal)
    (h : (mkeys m).Nodup) : (mkeys (mset m k v)).Nodup := by
  rw [mkeys_mset]
  by_cases hc : m.any (fun p => p.1 == k)
  · simpa [hc] using h
  · rw [if_neg hc, List.nodup_append]
    refine ⟨h, List.nodup_singleton k, ?_⟩
    intro a ha hb
    have hb2 : a = k := by simpa using hb
    subst hb2
    obtain ⟨p, hp, hpk⟩ := List.mem_map.mp ha
    exact hc (List.any_eq_true.mpr ⟨p, hp, by simp [hpk]⟩)

/-- One delta-branch step leaves the event alone or assigns the renamed column. -/
theorem deltaBranch_event_shape (strKey strEventColName strColValue : String) (ty : Nat)
    (n : Int) (f : ℚ) (rowAge : ℚ) (event : Store) (st : Cache) :
    (deltaBranch strKey strEventColName strColValue ty n f rowAge event st).1 = event ∨
      ∃ v, (deltaBranch strKey strEventColName strColValue ty n f rowAge event st).1 =
        mset event strEventColName v := by
  cases hm : mget st.oldValues strKey with
  | none =>
    left
    unfold deltaBranch
    simp [hm]
  | some w =>
    cases hm2 : mget st.oldValuesAge strKey with
    | none =>
      left
      unfold deltaBranch
      simp [hm, hm2]
    | some a =>
      cases a with
      | vTime t =>
        unfold deltaBranch
        simp only [hm, hm2]
        by_cases h1 : ty = columnTypeInt
        · rw [if_pos h1]
          exact Or.inr ⟨_, rfl⟩
        · rw [if_neg h1]
          by_cases h2 : ty = columnTypeFloat
          · rw [if_pos h2]
            exact Or.inr ⟨_, rfl⟩
          · rw [if_neg h2]
            exact Or.inr ⟨_, rfl⟩
      | vInt m2 =>
        left
        unfold deltaBranch
        simp [hm, hm2]
      | vFloat q2 =>
        left
        unfold deltaBranch
        simp [hm, hm2]
      | vStr s2 =>
        left
        unfold deltaBranch
        simp [hm, hm2]

/-- One processColumn step leaves the event alone or assigns one column. -/
theorem processColumn_event_shape (bt : BT) (queryType : QueryType)
    (values columns : List String) (rowAge : ℚ) (acc : Store × Cache)
    (strColName strColValue : String) (acc1 : Store × Cache)
    (h : processColumn bt queryType values columns rowAge acc strColName strColValue =
      .ok acc1) :
    acc1.1 = acc.1 ∨ ∃ k v, acc1.1 = mset acc.1 k v := by
  unfold processColumn at h
  by_cases hq : queryType = .slaveDelay ∧ strColName ≠ columnNameSlaveDelay
  · rw [if_pos hq] at h
    have h2 := Except.ok.inj h
    left
    rw [← h2]
  · rw [if_neg hq] at h
    by_cases hd : (queryType = .singleRow ∨ queryType = .multipleRows) ∧
        hasSuffix strColName bt.deltaWildcard = true
    · rw [if_pos hd] at h
      cases hk : (if queryType = .singleRow then Except.ok strColName
          else (getKeyFromRow bt values columns).map (fun k => k ++ strColName)) with
      | error e =>
        rw [hk] at h
        exact Except.noConfusion h
      | ok strKey =>
        rw [hk] at h
        have h2 := Except.ok.inj h
        rcases deltaBranch_event_shape strKey (renameColumn bt strColName) strColValue
            (classifyTy strColValue) ((goParseInt strColValue).getD 0)
            ((goParseFloat strColValue).getD 0) rowAge acc.1 acc.2 with hh | ⟨v, hv⟩
        · left
          rw [← h2]
          exact hh
        · right
          exact ⟨renameColumn bt strColName, v, by rw [← h2]; exact hv⟩
    · rw [if_neg hd] at h
      have h2 := Except.ok.inj h
      rcases classifyTy_cases strColValue with hty | hty | hty
      · right
        refine ⟨renameColumn bt strColName, .vStr strColValue, ?_⟩
        rw [← h2]
        simp [hty, columnTypeString]
      · right
        refine ⟨renameColumn bt strColName, .vInt ((goParseInt strColValue).getD 0), ?_⟩
        rw [← h2]
        simp [hty, columnTypeString, columnTypeInt]
      · right
        refine ⟨renameColumn bt strColName, .vFloat ((goParseFloat strColValue).getD 0), ?_⟩
        rw [← h2]
        simp [hty, columnTypeString, columnTypeInt, columnTypeFloat]

/-- The column fold only grows the key set of the event and keeps its keys distinct. -/
theorem foldlM_event_keys (bt : BT) (queryType : QueryType) (values columns : List String)
    (rowAge : ℚ) :
    ∀ (l : List (String × String)) (acc : Store × Cache) (ev1 : Store) (st1 : Cache),
      l.foldlM (fun a p => processColumn bt queryType values columns rowAge a p.1 p.2)
          acc = .ok (ev1, st1) →
      (∀ x ∈ mkeys acc.1, x ∈ mkeys ev1) ∧ ((mkeys acc.1).Nodup → (mkeys ev1).Nodup)
  | [], acc, ev1, st1, h => by
    have h2 : acc = (ev1, st1) := Except.ok.inj h
    rw [h2]
    exact ⟨fun x hx => hx, id⟩
  | p :: rest, acc, ev1, st1, h => by
    rw [List.foldlM_cons] at h
    cases hpc : processColumn bt queryType values columns rowAge acc p.1 p.2 with
    | error e =>
      rw [hpc] at h
      exact Except.noConfusion h
    | ok acc2 =>
      rw [hpc] at h
      have ih := foldlM_event_keys bt queryType values columns rowAge rest acc2 ev1 st1 h
      rcases processColumn_event_shape bt queryType values columns rowAge acc p.1 p.2
          acc2 hpc with hsh | ⟨k, v, hsh⟩
      · exact ⟨fun x hx => ih.1 x (by rw [hsh]; exact hx),
          fun hnd => ih.2 (by rw [hsh]; exact hnd)⟩
      · exact ⟨fun x hx => ih.1 x (by rw [hsh]; exact mem_mkeys_mset acc.1 k v x hx),
          fun hnd => ih.2 (by rw [hsh]; exact nodup_mkeys_mset acc.1 k v hnd)⟩

/-- An event still carrying only scaffolding keys after the column loop is set to nil. -/
theorem generateEventFromRow_suppress (bt : BT) (values columns : List String)
    (queryType : QueryType) (rowAge : ℚ) (st : Cache) (ev : Store) (st1 : Cache)
    (hcore : generateEventFromRowCore bt values columns queryType rowAge st =
      .ok (ev, st1))
    (hscaff : ∀ x ∈ mkeys ev, x = "@timestamp" ∨ x = "type") :
    generateEventFromRow bt values columns queryType rowAge st = .ok (none, st1) := by
  have hinv := foldlM_event_keys bt queryType values columns rowAge (columns.zip values)
    (eventInit queryType rowAge, st) ev st1 hcore
  have hts : "@timestamp" ∈ mkeys ev := hinv.1 _ (by simp [eventInit, mkeys])
  have hty : "type" ∈ mkeys ev := hinv.1 _ (by simp [eventInit, mkeys])
  have hnd : (mkeys ev).Nodup := hinv.2 (by simp [eventInit, mkeys])
  have hsub : mkeys ev ⊆ ["@timestamp", "type"] := by
    intro x hx
    rcases hscaff x hx with h | h <;> simp [h]
  have hsup : ["@timestamp", "type"] ⊆ mkeys ev := by
    intro x hx
    rcases List.mem_cons.mp hx with h | h
    · rw [h]
      exact hts
    · have h2 : x = "type" := by simpa using h
      rw [h2]
      exact hty
  have h1 : (mkeys ev).length ≤ 2 := (List.subperm_of_subset hnd hsub).length_le
  have h2 : 2 ≤ (mkeys ev).length :=
    (List.subperm_of_subset (by decide) hsup).length_le
  have hlen2 : mlen ev = 2 := by
    have h3 : (mkeys ev).length = 2 := le_antisymm h1 h2
    rw [mkeys, List.length_map] at h3
    exact h3
  unfold generateEventFromRow
  rw [hcore]
  show Except.ok (if mlen ev = 2 then none else some ev, st1) = Except.ok (none, st1)
  rw [hlen2]
  rfl

/-- One appendRowToEvent step leaves the event alone or assigns one column. -/
theorem appendRowToEvent_event_shape (bt : BT) (event : Store) (st : Cache)
    (values : List String) (rowAge : ℚ) :
    (appendRowToEvent bt event st values rowAge).1 = event ∨
      ∃ k v, (appendRowToEvent bt event st values rowAge).1 = mset event k v := by
  unfold appendRowToEvent
  by_cases hd : hasSuffix (values.getD 0 "") bt.deltaWildcard = true
  · rw [if_pos hd]
    rcases deltaBranch_event_shape (values.getD 0 "")
        (replaceFirst (values.getD 0 "") bt.deltaWildcard "_PERSECOND")
        (values.getD 1 "") (classifyTy (values.getD 1 ""))
        ((goParseInt (values.getD 1 "")).getD 0) ((goParseFloat (values.getD 1 "")).getD 0)
        rowAge event st with h | ⟨v, h⟩
    · left
      exact h
    · right
      exact ⟨_, v, h⟩
  · rw [if_neg hd]
    rcases classifyTy_cases (values.getD 1 "") with hty | hty | hty
    · right
      refine ⟨replaceFirst (values.getD 0 "") bt.deltaWildcard "_PERSECOND",
        .vStr (values.getD 1 ""), ?_⟩
      rw [if_pos hty]
    · right
      refine ⟨replaceFirst (values.getD 0 "") bt.deltaWildcard "_PERSECOND",
        .vInt ((goParseInt (values.getD 1 "")).getD 0), ?_⟩
      rw [if_neg (by rw [hty]; decide), if_pos hty]
    · right
      refine ⟨replaceFirst (values.getD 0 "") bt.deltaWildcard "_PERSECOND",
        .vFloat ((goParseFloat (values.getD 1 "")).getD 0), ?_⟩
      rw [if_neg (by rw [hty]; decide), if_neg (by rw [hty]; decide), if_pos hty]

/-- The two-columns row loop only grows the key set of the aggregated event and keeps
its keys distinct. -/
theorem loopRowsTwoColumns_keys (bt : BT) (dtNow : ℚ) :
    ∀ (rows : List (List String)) (ev0 : Store) (st0 : Cache),
      ((mkeys ev0).Nodup →
        (mkeys (loopRowsTwoColumns bt dtNow rows ev0 st0).1).Nodup) ∧
      (∀ x ∈ mkeys ev0, x ∈ mkeys (loopRowsTwoColumns bt dtNow rows ev0 st0).1)
  | [], ev0, st0 => ⟨id, fun x hx => hx⟩
  | r :: rest, ev0, st0 => by
    have ih := loopRowsTwoColumns_keys bt dtNow rest (appendRowToEvent bt ev0 st0 r dtNow).1
      (appendRowToEvent bt ev0 st0 r dtNow).2
    rcases appendRowToEvent_event_shape bt ev0 st0 r dtNow with h | ⟨k, v, h⟩
    · exact ⟨fun hnd => ih.1 (by rw [h]; exact hnd),
        fun x hx => ih.2 x (by rw [h]; exact hx)⟩
    · exact ⟨fun hnd => ih.1 (by rw [h]; exact nodup_mkeys_mset ev0 k v hnd),
        fun x hx => ih.2 x (by rw [h]; exact mem_mkeys_mset ev0 k v x hx)⟩

/-- A published two-columns event carries a data field beyond its scaffolding. -/
theorem twoColumns_publish_data (bt : BT) (server : String) (dtNow : ℚ)
    (rows : List (List String)) (st0 : Cache) (ev : Store) (st1 : Cache)
    (hloop : loopRowsTwoColumns bt dtNow rows (twoColumnEventInit server dtNow) st0 =
      (ev, st1))
    (hpub : shouldPublishTwoColumns ev = true) :
    ∃ k, k ∈ mkeys ev ∧ k ≠ "@timestamp" ∧ k ≠ "type" ∧ k ≠ "hostname" := by
  have hinv := loopRowsTwoColumns_keys bt dtNow rows (twoColumnEventInit server dtNow) st0
  have hnd : (mkeys ev).Nodup := by
    have h2 := hinv.1 (by simp [twoColumnEventInit, mkeys])
    rw [hloop] at h2
    exact h2
  by_contra hcon
  push_neg at hcon
  have hsub : mkeys ev ⊆ ["@timestamp", "type", "hostname"] := by
    intro x hx
    by_cases h1 : x = "@timestamp"
    · simp [h1]
    · by_cases h2 : x = "type"
      · simp [h2]
      · have h3 := hcon x hx h1 h2
        simp [h3]
  have hle : (mkeys ev).length ≤ 3 := (List.subperm_of_subset hnd hsub).length_le
  rw [shouldPublishTwoColumns] at hpub
  have hgt : 3 < mlen ev := of_decide_eq_true hpub
  rw [mlen] at hgt
  rw [mkeys, List.length_map] at hle
  omega

/-- C7 (confirmed): an event holding only its mandatory scaffolding fields after
processing all columns is suppressed: the row event builder returns nil when only
@timestamp and type remain (all shapes go through this check), and the aggregated
two-columns event is published only when some field beyond @timestamp, type and
hostname was added. -/
theorem c7_empty_suppression :
    (∀ (bt : BT) (values columns : List String) (queryType : QueryType) (rowAge : ℚ)
        (st : Cache) (ev : Store) (st1 : Cache),
      generateEventFromRowCore bt values columns queryType rowAge st = .ok (ev, st1) →
      (∀ x ∈ mkeys ev, x = "@timestamp" ∨ x = "type") →
      generateEventFromRow bt values columns queryType rowAge st = .ok (none, st1)) ∧
    (∀ (bt : BT) (server : String) (dtNow : ℚ) (rows : List (List String)) (st0 : Cache)
        (ev : Store) (st1 : Cache),
      loopRowsTwoColumns bt dtNow rows (twoColumnEventInit server dtNow) st0 = (ev, st1) →
      shouldPublishTwoColumns ev = true →
      ∃ k, k ∈ mkeys ev ∧ k ≠ "@timestamp" ∧ k ≠ "type" ∧ k ≠ "hostname") :=
  ⟨fun bt values columns queryType rowAge st ev st1 hcore hscaff =>
    generateEventFromRow_suppress bt values columns queryType rowAge st ev st1 hcore
      hscaff,
   fun bt server dtNow rows st0 ev st1 hloop hpub =>
    twoColumns_publish_data bt server dtNow rows st0 ev st1 hloop hpub⟩

/-- Witness for c7_empty_suppression: a single-row query whose only column is a delta
column on first sighting produces no event, and a published two-columns event built
from one data row carries a data key. -/
theorem c7_empty_suppression_witness :
    generateEventFromRow btDefault ["abc"] ["c__DELTA"] .singleRow 9 initCache =
        .ok
          (none,
           ⟨[("mysqlbeat", .vStr "init"), ("c__DELTA", .vStr "abc")],
            [("mysqlbeat", .vStr "init"), ("c__DELTA", .vTime 9)]⟩) ∧
      ∃ k,
        k ∈ mkeys [("@timestamp", GoVal.vTime 9), ("type", GoVal.vStr "two-columns"),
          ("hostname", GoVal.vStr "srv"), ("errors", GoVal.vStr "abc")] ∧
          k ≠ "@timestamp" ∧ k ≠ "type" ∧ k ≠ "hostname" :=
  ⟨c7_empty_suppression.1 btDefault ["abc"] ["c__DELTA"] .singleRow 9 initCache
      (eventInit .singleRow 9)
      ⟨[("mysqlbeat", .vStr "init"), ("c__DELTA", .vStr "abc")],
       [("mysqlbeat", .vStr "init"), ("c__DELTA", .vTime 9)]⟩
      rfl (by decide),
   c7_empty_suppression.2 btDefault "srv" 9 [["errors", "abc"]] initCache
     [("@timestamp", .vTime 9), ("type", .vStr "two-columns"), ("hostname", .vStr "srv"),
      ("errors", .vStr "abc")]
     initCache rfl rfl⟩

end Mysqlbeat
